import Mathlib

/-!
Verification of the contract-boundary extraction core.

This file is a shallow embedding, in Lean 4, of the extraction and
validation core of the repository:

* `contract_extractor.py` — data model (`FileType`, `Parameter`,
  `ContractBoundary`), the dispatcher `extract_contract_boundary` and the
  suffix-based `_detect_file_type`;
* `yaml_extractor.py` — `YAMLContractExtractor` (structured-data extractor);
* `python_extractor.py` — `PythonContractExtractor` (source-code extractor);
* `markdown_extractor.py` — `MarkdownContractExtractor` (section extractor);
* `mdx_validator.py` — `validate_mdx` and its helper checks.

File-system access, YAML parsing, Python `ast` parsing and the regex
tokenizers are treated as injected capabilities: the embedding receives the
parsed value (an `Option` is `none` when the underlying parser throws) and
models the algorithms that the Python code runs on that value.  Python
exceptions are modelled explicitly by `PyErr`, which distinguishes the typed
`ContractExtractionError` from unplanned exceptions (`AttributeError`,
`TypeError`) that certain code paths can raise.
-/

namespace ZT

/-- `FileType` enumeration from `contract_extractor.py`. -/
inductive FileType where
  | yaml
  | python
  | rego
  | markdown
  | unknown
deriving DecidableEq, Repr

/-- A parsed YAML value, the result of `yaml.safe_load`.  Mapping keys are
modelled as strings (the relevant manifests use string keys).  Float payloads
are abstracted away: the extractor only ever classifies a float as `"number"`
and stores it opaquely, so the payload is never inspected. -/
inductive YamlVal where
  | null
  | bool (b : Bool)
  | int (n : Int)
  | float
  | str (s : String)
  | list (xs : List YamlVal)
  | map (kvs : List (String × YamlVal))

/-- `Parameter` dataclass from `contract_extractor.py`.  The `default` field
holds the extracted literal value (a `YamlVal`) when present. -/
structure Parameter where
  name : String
  type : Option String := none
  required : Bool := false
  default : Option YamlVal := none
  description : Option String := none

/-- Values stored in a `ContractBoundary.metadata` mapping. -/
inductive MetaVal where
  | yaml (v : YamlVal)
  | str (s : String)
  | strList (xs : List String)

/-- `ContractBoundary` dataclass from `contract_extractor.py`.  The Python
`dict` metadata is modelled as an association list in insertion order. -/
structure ContractBoundary where
  file_path : String
  file_type : FileType
  parameters : List Parameter
  metadata : List (String × MetaVal)

/-- Python exceptions surfaced by the embedded code.
`contractExtractionError` is the typed error of the package; the other
constructors model unplanned exceptions escaping from library calls. -/
inductive PyErr where
  | contractExtractionError (msg : String)
  | attributeError (msg : String)
  | typeError (msg : String)

/-- Python `dict` membership `k in d` for a string-keyed mapping. -/
def dictContains (kvs : List (String × YamlVal)) (k : String) : Bool :=
  kvs.any (fun kv => kv.1 == k)

/-- Python `d[k]` lookup for a string-keyed mapping. -/
def dictGet (kvs : List (String × YamlVal)) (k : String) : Option YamlVal :=
  (kvs.find? (fun kv => kv.1 == k)).map (fun kv => kv.2)

/-- Python substring containment `needle in hay` on character lists. -/
def containsSub (needle : List Char) : List Char → Bool
  | [] => needle.isEmpty
  | c :: t => needle.isPrefixOf (c :: t) || containsSub needle t

/-- Python `==` between a parsed YAML value and a string literal: only a
string compares equal to a string. -/
def yamlEqStr (v : YamlVal) (s : String) : Bool :=
  match v with
  | .str t => t == s
  | _ => false

/-- `YAMLContractExtractor._infer_type`: structural type classification of a
runtime value (`bool` is tested before `int`, as in the source). -/
def inferType : YamlVal → String
  | .bool _ => "boolean"
  | .int _ => "integer"
  | .float => "number"
  | .str _ => "string"
  | .list _ => "array"
  | .map _ => "object"
  | .null => "unknown"

/-- `not isinstance(value, (dict, list))`: scalar leaves keep their literal
value in `default`; mappings and lists leave it absent. -/
def isScalarDefault : YamlVal → Bool
  | .map _ => false
  | .list _ => false
  | _ => true

/-- The recursive loop body of `YAMLContractExtractor._extract_for_provider`:
flatten a mapping into dot-path parameters.  `pre` is the accumulated prefix
(`""` at the `forProvider` root, `name ++ "."` below a nested mapping); note
`f"{prefix}{key}" if prefix else key` is `pre ++ k` in both cases. -/
def flattenForProvider : String → List (String × YamlVal) → List Parameter
  | _, [] => []
  | pre, (k, v) :: rest =>
    let pname := pre ++ k
    { name := pname
      type := some (inferType v)
      required := false
      default := if isScalarDefault v then some v else none
      description := none } ::
    ((match v with
      | YamlVal.map kvs => flattenForProvider (pname ++ ".") kvs
      | _ => []) ++ flattenForProvider pre rest)
termination_by _pre l => sizeOf l
decreasing_by all_goals (simp_wf <;> omega)

/-- `YAMLContractExtractor._extract_for_provider` as called from `extract`:
the source calls `.items()` on the value of `spec.forProvider` without
checking that it is a mapping, so a non-mapping value raises
`AttributeError` (an object without an `items` attribute). -/
def extractForProvider : YamlVal → Except PyErr (List Parameter)
  | YamlVal.map kvs => Except.ok (flattenForProvider "" kvs)
  | _ => Except.error (PyErr.attributeError "object has no attribute \x27items\x27")

/-- `YAMLContractExtractor._extract_metadata`: copy the keys `name`,
`namespace`, `labels`, `annotations` out of the `metadata` value.  The source
runs `key in metadata_dict` / `metadata_dict[key]` without checking that the
value is a `dict`, so Python container semantics apply: membership on a list
compares elements, membership on a string is a substring test (and indexing
either with a string key then raises `TypeError`), and `in` on a scalar
raises `TypeError` outright. -/
def extractMetadataKey (mv : YamlVal) (key : String) :
    Except PyErr (List (String × MetaVal)) :=
  match mv with
  | .map kvs =>
    match dictGet kvs key with
    | some v => Except.ok [(key, MetaVal.yaml v)]
    | none => Except.ok []
  | .list xs =>
    if xs.any (fun v => yamlEqStr v key) then
      Except.error (PyErr.typeError "list indices must be integers or slices, not str")
    else
      Except.ok []
  | .str s =>
    if containsSub key.data s.data then
      Except.error (PyErr.typeError "string indices must be integers")
    else
      Except.ok []
  | _ =>
    Except.error (PyErr.typeError "argument of type is not iterable")

/-- `YAMLContractExtractor._extract_metadata`: the four allowed keys are
probed in source order; the first unplanned exception aborts. -/
def extractMetadata (mv : YamlVal) : Except PyErr (List (String × MetaVal)) := do
  let a ← extractMetadataKey mv "name"
  let b ← extractMetadataKey mv "namespace"
  let c ← extractMetadataKey mv "labels"
  let d ← extractMetadataKey mv "annotations"
  Except.ok (a ++ b ++ c ++ d)

/-- `YAMLContractExtractor.extract` after the file read: `parsed` is the
result of `yaml.safe_load` (`none` when the parser throws).  The root must be
a mapping; `metadata` is filtered, `spec.forProvider` is flattened, and
`spec.compositeTypeRef` is copied verbatim into metadata. -/
def yamlExtract (file_path : String) (parsed : Option YamlVal) :
    Except PyErr ContractBoundary := do
  match parsed with
  | none => Except.error (PyErr.contractExtractionError "Failed to parse YAML")
  | some data =>
    match data with
    | YamlVal.map kvs =>
      let md ←
        match dictGet kvs "metadata" with
        | some mv => extractMetadata mv
        | none => Except.ok []
      match dictGet kvs "spec" with
      | some (YamlVal.map skvs) =>
        let params ←
          match dictGet skvs "forProvider" with
          | some fp => extractForProvider fp
          | none => Except.ok []
        let md2 :=
          match dictGet skvs "compositeTypeRef" with
          | some ctr => md ++ [("compositeTypeRef", MetaVal.yaml ctr)]
          | none => md
        Except.ok { file_path := file_path, file_type := FileType.yaml,
                    parameters := params, metadata := md2 }
      | _ =>
        Except.ok { file_path := file_path, file_type := FileType.yaml,
                    parameters := [], metadata := md }
    | _ => Except.error (PyErr.contractExtractionError "YAML file must contain a dictionary")

/-! ### Source-code extractor (`python_extractor.py`)

The Python `ast` is modelled by `Stmt`: only the node kinds the extractor
inspects (`FunctionDef`, `AsyncFunctionDef`, `ClassDef`, `AnnAssign`) are
distinguished; every other statement kind is `other` and only contributes its
child statements to the traversal.  Annotations and return types are stored
as their `ast.unparse` rendering (a string), since the extractor only ever
renders them.  Decorator lists are omitted: the source computes an
`is_dataclass` flag from them but never uses it. -/

/-- One entry of `node.args.args`: a positional parameter with its optional
annotation rendered as source text. -/
structure Arg where
  arg : String
  annotation : Option String

/-- Statement-level Python AST as traversed by the extractor. -/
inductive Stmt where
  | functionDef (name : String) (args : List Arg) (returns : Option String) (body : List Stmt)
  | asyncFunctionDef (name : String) (args : List Arg) (returns : Option String) (body : List Stmt)
  | classDef (name : String) (body : List Stmt)
  | annAssign (target : Option String) ( annotation : String)
  | other (children : List Stmt)

/-- Child statements of a node, as enumerated by `ast.iter_child_nodes`
(restricted to statements: the expression children of a node can never
contain a `FunctionDef`/`ClassDef` and contribute nothing). -/
def stmtChildren : Stmt → List Stmt
  | .functionDef _ _ _ body => body
  | .asyncFunctionDef _ _ _ body => body
  | .classDef _ body => body
  | .annAssign _ _ => []
  | .other children => children

mutual
/-- Node-count measure used for termination of the traversals. -/
def stmtWeight : Stmt → Nat
  | .functionDef _ _ _ body => 1 + stmtListWeight body
  | .asyncFunctionDef _ _ _ body => 1 + stmtListWeight body
  | .classDef _ body => 1 + stmtListWeight body
  | .annAssign _ _ => 1
  | .other children => 1 + stmtListWeight children

/-- Total node count of a statement list. -/
def stmtListWeight : List Stmt → Nat
  | [] => 0
  | s :: rest => stmtWeight s + stmtListWeight rest
end

theorem stmtListWeight_append (a b : List Stmt) :
    stmtListWeight (a ++ b) = stmtListWeight a + stmtListWeight b := by
  induction a with
  | nil => simp [stmtListWeight]
  | cons s t ih => simp [stmtListWeight, ih]; omega

theorem stmtWeight_eq (s : Stmt) :
    stmtWeight s = 1 + stmtListWeight (stmtChildren s) := by
  cases s <;> simp [stmtWeight, stmtChildren, stmtListWeight]

/-- `ast.walk`: breadth-first traversal of the whole tree (a FIFO queue of
nodes; each visited node appends its children to the back). -/
def bfsWalk : List Stmt → List Stmt
  | [] => []
  | s :: rest => s :: bfsWalk (rest ++ stmtChildren s)
termination_by l => stmtListWeight l
decreasing_by
  rw [stmtListWeight_append]
  rw [show stmtListWeight (s :: rest) = stmtWeight s + stmtListWeight rest from rfl]
  rw [stmtWeight_eq s]
  omega

/-- Depth-first declaration order, in source order — the traversal order the
specification describes.  (Modelled from the spec: "traverse every
declaration in the module (order = depth-first declaration order as they
appear)"; the source instead uses `ast.walk`, which is breadth-first.) -/
def dfsWalk : List Stmt → List Stmt
  | [] => []
  | s :: rest => s :: (dfsWalk (stmtChildren s) ++ dfsWalk rest)
termination_by l => stmtListWeight l
decreasing_by
  all_goals
    rw [show stmtListWeight (s :: rest) = stmtWeight s + stmtListWeight rest from rfl,
        stmtWeight_eq s]
    omega

/-- `name.startswith('_')`. -/
def startsWithUnderscore (s : String) : Bool :=
  match s.data with
  | '_' :: _ => true
  | _ => false

/-- `PythonContractExtractor._extract_function_params`: positional arguments
except `self`/`cls`, then the return-type parameter when annotated. -/
def extractFunctionParams (name : String) (args : List Arg) (ret : Option String) :
    List Parameter :=
  (args.filter (fun a => !(a.arg == "self" || a.arg == "cls"))).map
    (fun a => { name := name ++ "." ++ a.arg, type := a.annotation, required := true }) ++
  (match ret with
   | some r => [{ name := name ++ ".return", type := some r, required := false }]
   | none => [])

/-- `PythonContractExtractor._extract_class_params`: direct body members that
are annotated assignments to a simple name. -/
def extractClassParams (cname : String) (body : List Stmt) : List Parameter :=
  body.filterMap (fun item =>
    match item with
    | Stmt.annAssign (some target) ann =>
      some { name := cname ++ "." ++ target, type := some ann, required := true }
    | _ => none)

/-- Parameters contributed by one visited node in the `ast.walk` loop of
`PythonContractExtractor.extract`: functions are skipped when their name
starts with `_`; classes have no underscore filter. -/
def nodeParams : Stmt → List Parameter
  | .functionDef name args ret _ =>
    if startsWithUnderscore name then [] else extractFunctionParams name args ret
  | .asyncFunctionDef name args ret _ =>
    if startsWithUnderscore name then [] else extractFunctionParams name args ret
  | .classDef name body => extractClassParams name body
  | _ => []

/-- The accumulation of the `ast.walk` loop over an already-computed visit
order: parameters in visit order, plus the `classes` metadata list. -/
def collectNodes : List Stmt → List Parameter × List String
  | [] => ([], [])
  | n :: rest =>
    let acc := collectNodes rest
    (nodeParams n ++ acc.1,
     match n with
     | .classDef cname _ => cname :: acc.2
     | _ => acc.2)

/-- `PythonContractExtractor.extract` after the file read: `parsed` is the
statement list of the module built by `ast.parse` (`none` when it throws).
The `classes` metadata key exists exactly when at least one class was
visited. -/
def pythonExtract (file_path : String) (parsed : Option (List Stmt)) :
    Except PyErr ContractBoundary :=
  match parsed with
  | none => Except.error (PyErr.contractExtractionError "Failed to parse Python file")
  | some mod =>
    let acc := collectNodes (bfsWalk mod)
    Except.ok { file_path := file_path, file_type := FileType.python,
                parameters := acc.1,
                metadata :=
                  if acc.2.isEmpty then []
                  else [("classes", MetaVal.strList acc.2)] }

/-! ### Section extractor (`markdown_extractor.py`)

The document is modelled as its list of lines (the raw content is the lines
joined by newlines).  The heading regexes `^#\s+(.+)$` and `^##\s+(.+?)$`
(MULTILINE) match at a line start, but their `\s+` is free to run across
newlines: when everything after the marker on its own line is whitespace,
the run absorbs whole whitespace-only lines and the group is captured from
the first following line holding a non-whitespace character (from its first
such character to its end — `.` cannot cross a newline and `$` stops at the
line end, for the lazy `(.+?)$` and the greedy `(.+)$` alike).  When no such
line exists before the end of input, backtracking still yields a match —
whose group then strips to the empty string — exactly when the whitespace
run has a non-newline character strictly after its first character (`\s+`
must keep one char; for `\s*`, see `categoryMatch`, anywhere in the run).
Whitespace is modelled as ASCII whitespace (`Char.isWhitespace`). -/

/-- Trim leading and trailing whitespace from a character list
(Python `str.strip()`). -/
def trimChars (cs : List Char) : List Char :=
  ((cs.dropWhile Char.isWhitespace).reverse.dropWhile Char.isWhitespace).reverse

/-- Continuation of a whitespace run across following lines: skip
whitespace-only lines; on the first line holding a non-whitespace character
return the raw capture group (that line from its first non-whitespace
character to its end) and the number of lines consumed, the captured one
included.  `none` when every remaining line is whitespace-only. -/
def findCont : List String → Option (String × Nat)
  | [] => none
  | m :: ms =>
    if m.data.all Char.isWhitespace then
      (findCont ms).map (fun gn => (gn.1, gn.2 + 1))
    else some (String.mk (m.data.dropWhile Char.isWhitespace), 1)

/-- The match of `\s+(.+?)$` (equally `\s+(.+)$`) right after a heading
marker: `cs` is the rest of the marker's line, `rest` the following lines.
Returns the stripped group and how many following lines the match consumed.
In-line capture when the rest of the line has non-whitespace content;
cross-line capture via `findCont` when it is whitespace-only; at end of
input a match (stripping to `""`) survives backtracking exactly when a
non-newline whitespace character sits strictly after the first run
character — i.e. the line rest has two characters, or some following
whitespace-only line is nonempty. -/
def markerCapture (cs : List Char) (rest : List String) : Option (String × Nat) :=
  match cs with
  | c :: ctail =>
    if c.isWhitespace then
      if !(cs.dropWhile Char.isWhitespace).isEmpty then
        some (String.mk (trimChars cs), 0)
      else
        match findCont rest with
        | some gn => some (String.mk (trimChars gn.1.data), gn.2)
        | none =>
          if !ctail.isEmpty || rest.any (fun m => !m.data.isEmpty) then
            some ("", rest.length)
          else none
    else none
  | [] =>
    match findCont rest with
    | some gn => some (String.mk (trimChars gn.1.data), gn.2)
    | none =>
      if rest.any (fun m => !m.data.isEmpty) then some ("", rest.length) else none

/-- A match of `^##\s+(.+?)$` starting at line `l` (with the following
lines in scope for the cross-line cases): the stripped section name and the
count of following lines consumed. -/
def h2Match (l : String) (rest : List String) : Option (String × Nat) :=
  match l.data with
  | '#' :: '#' :: cs => markerCapture cs rest
  | _ => none

/-- A match of `^#\s+(.+)$` starting at line `l` (a second `#` fails the
`\s+`, so level-2 headings never match). -/
def h1Match (l : String) (rest : List String) : Option (String × Nat) :=
  match l.data with
  | '#' :: cs => markerCapture cs rest
  | _ => none

/-- `re.search` of the title pattern: the first line where `^#\s+(.+)$`
matches, with its stripped group. -/
def titleOf : List String → Option String
  | [] => none
  | l :: rest =>
    match h1Match l rest with
    | some gn => some gn.1
    | none => titleOf rest

/-- Join lines with newlines (inverse of splitting the document). -/
def joinLines : List String → String
  | [] => ""
  | [l] => l
  | l :: rest => l ++ "\n" ++ joinLines rest

/-- The body text of one section occurrence: the lines until the next
heading match, joined and stripped (equals `parts[i + 1].strip()` of the
source's `re.split`, which strips the whitespace surrounding the chunk). -/
def sectionBody (body : List String) : String :=
  String.mk (trimChars (joinLines body).data)

/-- Split the lines at the next heading match: the body lines before it and
the remainder starting at the matching line. -/
def splitBody : List String → List String × List String
  | [] => ([], [])
  | x :: xs =>
    match h2Match x xs with
    | some _ => ([], x :: xs)
    | none => (x :: (splitBody xs).1, (splitBody xs).2)

theorem splitBody_snd_length_le : ∀ ls : List String, (splitBody ls).2.length ≤ ls.length := by
  intro ls
  induction ls with
  | nil => simp [splitBody]
  | cons x xs ih =>
    rw [splitBody]
    cases h2Match x xs with
    | some hn => simp
    | none =>
      simp only []
      exact Nat.le_succ_of_le ih

/-- Occurrences of level-2 sections in document order, per the
`re.split` scan: each heading match with the body lines up to the next
match.  Content before the first match is discarded; the lines a cross-line
match consumes belong to the match, not to any body. -/
def sectionsSplit : List String → List (String × List String)
  | [] => []
  | l :: rest =>
    match h2Match l rest with
    | some hn =>
      (hn.1, (splitBody (rest.drop hn.2)).1) ::
        sectionsSplit (splitBody (rest.drop hn.2)).2
    | none => sectionsSplit rest
termination_by l => l.length
decreasing_by
  · simp only [List.length_cons]
    refine Nat.lt_succ_of_le (Nat.le_trans (splitBody_snd_length_le _) ?_)
    rw [List.length_drop]
    exact Nat.sub_le _ _
  · simp

/-- The heading matches of the document in scan order (the names the
`re.split` scan captures, duplicates included). -/
def h2Headings : List String → List String
  | [] => []
  | l :: rest =>
    match h2Match l rest with
    | some hn => hn.1 :: h2Headings (rest.drop hn.2)
    | none => h2Headings rest
termination_by l => l.length
decreasing_by
  · simp only [List.length_cons]
    refine Nat.lt_succ_of_le ?_
    rw [List.length_drop]
    exact Nat.sub_le _ _
  · simp

/-- Python `dict` insert-or-overwrite: an existing key keeps its position and
receives the new value; a new key is appended. -/
def upsert (d : List (String × String)) (k v : String) : List (String × String) :=
  if d.any (fun kv => kv.1 == k) then
    d.map (fun kv => if kv.1 == k then (k, v) else kv)
  else d ++ [(k, v)]

/-- `MarkdownContractExtractor._extract_sections`: the `sections` dictionary,
mapping each section name to its content (duplicate headings collapse onto
one entry — the first occurrence's position, the last occurrence's body). -/
def extractSections (lines : List String) : List (String × String) :=
  (sectionsSplit lines).foldl (fun d hv => upsert d hv.1 (sectionBody hv.2)) []

/-- First 200 characters (`section_content[:200]`). -/
def take200 (s : String) : String :=
  String.mk (s.data.take 200)

/-- `MarkdownContractExtractor.extract` after the file read: `content` is the
document's lines (`none` when the read throws). -/
def markdownExtract (file_path : String) (content : Option (List String)) :
    Except PyErr ContractBoundary :=
  match content with
  | none => Except.error (PyErr.contractExtractionError "Failed to read Markdown file")
  | some lines =>
    let secs := extractSections lines
    let params := secs.map (fun kv =>
      { name := kv.1, type := some "section", required := false,
        default := none,
        description := if kv.2 ≠ "" then some (take200 kv.2) else none : Parameter })
    let mdTitle : List (String × MetaVal) :=
      match titleOf lines with
      | some t => [("title", MetaVal.str t)]
      | none => []
    Except.ok { file_path := file_path, file_type := FileType.markdown,
                parameters := params,
                metadata := mdTitle ++ [("sections", MetaVal.strList (secs.map (fun kv => kv.1)))] }

/-! ### Policy-rule extractor (`rego_extractor.py`)

The regex scans are injected: a `RegoFile` carries the match lists that
`re.search`/`re.finditer`/`re.findall` produce on the file's text, in
document order.  The extractor's own logic (keyword filtering, bracket
parameter splitting, set-deduplication of input references) is embedded. -/

/-- The regex-level view of a Rego file: the `package` group if the package
pattern matches, the (identifier, optional bracket text) rule-head matches in
order, and the `input.`-reference groups in order with duplicates. -/
structure RegoFile where
  packageName : Option String
  ruleMatches : List (String × Option String)
  inputRefs : List String

/-- Deduplication keeping first occurrences, the enumeration the embedding
fixes for the source's `set(...)` iteration (the spec leaves the order of
that unordered collection unconstrained). -/
def dedupKeepFirst : List String → List String
  | [] => []
  | x :: xs => x :: dedupKeepFirst (xs.filter (fun y => y != x))
termination_by l => l.length
decreasing_by
  simp only [List.length_cons]
  exact Nat.lt_succ_of_le (List.length_filter_le _ _)

/-- Split a character list on a separator character (Python `str.split` with
an explicit separator: `"".split(sep) == [""]`). -/
def splitOnChar (sep : Char) : List Char → List (List Char)
  | [] => [[]]
  | c :: rest =>
    let r := splitOnChar sep rest
    if c == sep then [] :: r
    else
      match r with
      | h :: t => (c :: h) :: t
      | [] => [[c]]

/-- `RegoContractExtractor.extract` after the file read. -/
def regoExtract (file_path : String) (content : Option RegoFile) :
    Except PyErr ContractBoundary :=
  match content with
  | none => Except.error (PyErr.contractExtractionError "Failed to read Rego file")
  | some rf =>
    let ruleParams := rf.ruleMatches.flatMap (fun m =>
      if m.1 == "package" || m.1 == "import" || m.1 == "default" then []
      else
        ({ name := m.1, type := some "rule", required := false : Parameter }) ::
        (match m.2 with
         | some brack =>
           (splitOnChar ',' brack.data).map (fun p =>
             { name := m.1 ++ "." ++ String.mk (trimChars p), type := some "input",
               required := true : Parameter })
         | none => []))
    let inputParams := (dedupKeepFirst rf.inputRefs).map (fun r =>
      { name := "input." ++ r, type := some "input", required := false : Parameter })
    let params := ruleParams ++ inputParams
    let mdPackage : List (String × MetaVal) :=
      match rf.packageName with
      | some p => [("package", MetaVal.str p)]
      | none => []
    Except.ok { file_path := file_path, file_type := FileType.rego,
                parameters := params,
                metadata := mdPackage ++
                  [("rules", MetaVal.strList
                    ((params.filter (fun p => p.type == some "rule")).map (fun p => p.name)))] }

/-! ### Dispatcher (`contract_extractor.py`) -/

/-- `pathlib.Path(...).name`: the final non-empty `/`-separated component. -/
def pathNameChars (p : String) : List Char :=
  (((splitOnChar '/' p.data).filter (fun s => !s.isEmpty)).getLast?).getD []

/-- The tail of a character list starting at its last `'.'`, if any. -/
def lastDotSuffix : List Char → Option (List Char)
  | [] => none
  | c :: rest =>
    match lastDotSuffix rest with
    | some s => some s
    | none => if c == '.' then some (c :: rest) else none

/-- `pathlib` `stem`/`suffix` split of a file name: the suffix starts at the
last dot when that dot is neither the first nor the last character of the
name; otherwise the suffix is empty. -/
def nameSplit (name : List Char) : List Char × List Char :=
  match name with
  | [] => ([], [])
  | c :: rest =>
    match lastDotSuffix rest with
    | some s =>
      if s.length ≥ 2 then ((c :: rest).take (name.length - s.length), s)
      else (name, [])
    | none => (name, [])

/-- `pathlib.Path(...).suffix`. -/
def pathSuffix (p : String) : String :=
  String.mk (nameSplit (pathNameChars p)).2

/-- `pathlib.Path(...).stem`. -/
def pathStem (p : String) : String :=
  String.mk (nameSplit (pathNameChars p)).1

/-- Lower-case a string (`suffix.lower()`). -/
def toLowerStr (s : String) : String :=
  String.mk (s.data.map Char.toLower)

/-- `_detect_file_type`: file type from the lower-cased path suffix. -/
def detectFileType (p : String) : FileType :=
  let suffix := toLowerStr (pathSuffix p)
  if suffix == ".yaml" || suffix == ".yml" then FileType.yaml
  else if suffix == ".py" then FileType.python
  else if suffix == ".rego" then FileType.rego
  else if suffix == ".md" || suffix == ".markdown" then FileType.markdown
  else FileType.unknown

/-- The injected file system: for an existing path, the parsed views of its
content that the four extractors consume (`none` inside a view models the
corresponding parser or read throwing). -/
structure SourceFile where
  yamlParsed : Option YamlVal
  pyParsed : Option (List Stmt)
  textLines : Option (List String)
  regoContent : Option RegoFile

/-- `extract_contract_boundary`: existence check, suffix-based type
detection, dispatch to the matching extractor. -/
def extractContractBoundary (fs : String → Option SourceFile) (file_path : String) :
    Except PyErr ContractBoundary :=
  match fs file_path with
  | none => Except.error (PyErr.contractExtractionError ("File not found: " ++ file_path))
  | some f =>
    match detectFileType file_path with
    | FileType.unknown =>
      Except.error (PyErr.contractExtractionError ("Unsupported file type: " ++ file_path))
    | FileType.yaml => yamlExtract file_path f.yamlParsed
    | FileType.python => pythonExtract file_path f.pyParsed
    | FileType.rego => regoExtract file_path f.regoContent
    | FileType.markdown => markdownExtract file_path f.textLines

/-! ### Documentation validator (`mdx_validator.py`)

The two regex scans over the document (`<(\w+)([^>]*)/?>` in
`_validate_components` and `<(/?)(\w+)([^>]*)/?>` in `_check_unclosed_tags`)
see exactly the same tag-like tokens; the tokenization is injected as a
`Tag` list in document order.  A closing token (`</Name ...>`) is matched
only by the second pattern, so the component loop iterates over the
non-closing tokens.  `attrs` is the raw text of group "attributes" (which
for a self-closing token ends in the `/`, as the greedy `[^>]*` consumes
it); the attribute checks are Python substring tests on it, hence
insensitive to attribute order.  `line` is the 1-based line number computed
from the match offset. -/

/-- One tag-like token of the document. -/
structure Tag where
  closing : Bool
  name : String
  attrs : String
  line : Nat

/-- `match.group(3).endswith('/')`: the token is self-closing. -/
def Tag.selfClosing (t : Tag) : Bool :=
  match t.attrs.data.getLast? with
  | some '/' => true
  | _ => false

/-- `ValidationError` dataclass from `mdx_validator.py`. -/
structure ValidationError where
  line : Option Nat
  message : String
  severity : String := "error"
deriving DecidableEq, Repr

/-- `ValidationResult` dataclass from `mdx_validator.py`. -/
structure ValidationResult where
  valid : Bool
  errors : List ValidationError
  warnings : List ValidationError
deriving DecidableEq, Repr

/-- The `ComponentType` whitelist, in enumeration order. -/
def componentTypes : List String :=
  ["ParamField", "Step", "Steps", "CodeBlock", "Callout"]

/-- The `"Allowed: ..."` listing in the unknown-component message
(`', '.join(valid_components)`). -/
def componentTypesJoined : String :=
  "ParamField, Step, Steps, CodeBlock, Callout"

/-- The mismatched-closing-tag error of `_check_unclosed_tags`. -/
def mismatchError (t : Tag) : ValidationError :=
  { line := some t.line,
    message := "Closing tag </" ++ t.name ++ "> without matching opening tag" }

/-- The unclosed-tag error of `_check_unclosed_tags`. -/
def unclosedError (nl : String × Nat) : ValidationError :=
  { line := some nl.2, message := "Unclosed tag: <" ++ nl.1 ++ ">" }

/-- The scanning loop of `_check_unclosed_tags`.  The stack holds
(name, opening line) pairs, innermost first (the source appends/pops at the
end of a Python list; the head of this list is that end).  A closing token
matching the top pops; a mismatching or unmatched closing token appends an
error and leaves the stack unchanged; a self-closing token is ignored; any
other opening token pushes. -/
def tagScan (stack : List (String × Nat)) (errs : List ValidationError) :
    List Tag → List ValidationError × List (String × Nat)
  | [] => (errs, stack)
  | t :: rest =>
    if t.closing then
      match stack with
      | [] => tagScan [] (errs ++ [mismatchError t]) rest
      | top :: stackTail =>
        if top.1 == t.name then tagScan stackTail errs rest
        else tagScan (top :: stackTail) (errs ++ [mismatchError t]) rest
    else if t.selfClosing then tagScan stack errs rest
    else tagScan ((t.name, t.line) :: stack) errs rest

/-- `_check_unclosed_tags`: scan, then report every tag still on the stack
as unclosed, at its opening line, in bottom-to-top order (the source
iterates the Python list from its start). -/
def checkUnclosedTags (tags : List Tag) : List ValidationError :=
  let r := tagScan [] [] tags
  r.1 ++ r.2.reverse.map unclosedError

/-- The per-token body of the `_validate_components` loop: whitelist check
(with `continue` on failure), then the ParamField and Step attribute
requirements as substring tests on the raw attribute text. -/
def componentCheck (t : Tag) : List ValidationError :=
  if !(componentTypes.contains t.name) then
    [{ line := some t.line,
       message := "Unknown component: " ++ t.name ++ ". Allowed: " ++ componentTypesJoined }]
  else if t.name == "ParamField" then
    (if !(containsSub "path=".data t.attrs.data || containsSub "path =".data t.attrs.data) then
      [{ line := some t.line, message := "ParamField requires \x27path\x27 attribute" }]
    else []) ++
    (if !(containsSub "type=".data t.attrs.data || containsSub "type =".data t.attrs.data) then
      [{ line := some t.line, message := "ParamField requires \x27type\x27 attribute" }]
    else [])
  else if t.name == "Step" then
    (if !(containsSub "title=".data t.attrs.data || containsSub "title =".data t.attrs.data) then
      [{ line := some t.line, message := "Step requires \x27title\x27 attribute" }]
    else [])
  else []

/-- `_validate_components`: the component loop over the non-closing tokens,
followed by the tag-balance check over all tokens. -/
def validateComponents (tags : List Tag) : List ValidationError :=
  (tags.filter (fun t => !t.closing)).flatMap componentCheck ++ checkUnclosedTags tags

/-- `[a-z0-9]` character class. -/
def isKebabChar (c : Char) : Bool :=
  c.isDigit || ('a' ≤ c && c ≤ 'z')

/-- `re.match(r'^[a-z0-9]+(-[a-z0-9]+)*$', stem)`: every `-`-separated word
is nonempty and drawn from `[a-z0-9]`. -/
def kebabOk (stem : String) : Bool :=
  (splitOnChar '-' stem.data).all (fun w => !w.isEmpty && w.all isKebabChar)

/-- One alternative of the timestamp pattern anchored at the current
position: `\d{4}-\d{2}-\d{2}`, `\d{8}` or `\d{10}`. -/
def tsAt (cs : List Char) : Bool :=
  (match cs with
   | a :: b :: c :: d :: '-' :: e :: f :: '-' :: g :: h :: _ =>
     [a, b, c, d, e, f, g, h].all Char.isDigit
   | _ => false) ||
  ((cs.take 8).length == 8 && (cs.take 8).all Char.isDigit) ||
  ((cs.take 10).length == 10 && (cs.take 10).all Char.isDigit)

/-- `re.search` of the timestamp pattern: some position matches. -/
def hasTimestamp (s : String) : Bool :=
  s.data.tails.any tsAt

/-- `_validate_filename`: extension, kebab-case, word count, timestamp —
all four checks run and their errors concatenate. -/
def validateFilename (path : String) : List ValidationError :=
  let stem := pathStem path
  let suffix := pathSuffix path
  (if suffix != ".mdx" then
    [{ line := none, message := "File must have .mdx extension, got: " ++ suffix }]
  else []) ++
  (if !kebabOk stem then
    [{ line := none, message := "Filename must be kebab-case: " ++ stem }]
  else []) ++
  (let words := splitOnChar '-' stem.data
   if words.length > 3 then
    [{ line := none,
       message := "Filename must have max 3 words, got " ++ Nat.repr words.length ++ ": " ++ stem }]
  else []) ++
  (if hasTimestamp stem then
    [{ line := none, message := "Filename must not contain timestamps: " ++ stem }]
  else [])

/-- A match of `^category:\s*(.+)$` starting at line `l`: in-line when the
rest of the line has non-whitespace content; otherwise `\s*` runs across
the newline and the group is captured from the first following line with a
non-whitespace character (`findCont`); at end of input, since `\s*` may
give back its whole run, a match (stripping to `""`) survives exactly when
the run holds any non-newline whitespace character — the line rest is
nonempty or some following whitespace-only line is.  The group is returned
stripped, as `_validate_frontmatter` applies `.strip()`. -/
def categoryMatch (l : String) (rest : List String) : Option String :=
  if "category:".data.isPrefixOf l.data then
    let cs := l.data.drop 9
    if !(cs.dropWhile Char.isWhitespace).isEmpty then
      some (String.mk (trimChars cs))
    else
      match findCont rest with
      | some gn => some (String.mk (trimChars gn.1.data))
      | none =>
        if !cs.isEmpty || rest.any (fun m => !m.data.isEmpty) then some "" else none
  else none

/-- `re.search` of the category pattern over the frontmatter: the first
line where a (possibly cross-line) match starts, with its stripped value. -/
def categoryValue : List String → Option String
  | [] => none
  | l :: rest =>
    match categoryMatch l rest with
    | some v => some v
    | none => categoryValue rest

/-- `_validate_frontmatter`: `fm` is the line list of the delimited block
(`none` when `^---\n(.*?)\n---` does not match at the start of the file).
Three required line-leading keys, then the closed category set. -/
def validateFrontmatter (fm : Option (List String)) : List ValidationError :=
  match fm with
  | none => [{ line := some 1, message := "Missing frontmatter section (must start with ---)" }]
  | some lines =>
    (["title", "category", "description"].filterMap (fun field =>
      if lines.any (fun l => (field ++ ":").data.isPrefixOf l.data) then none
      else some { line := none, message := "Missing required frontmatter field: " ++ field })) ++
    (match categoryValue lines with
     | some v =>
       if ["spec", "runbook", "adr"].contains v then []
       else [{ line := none,
               message := "Invalid category \x27" ++ v ++ "\x27, must be one of: spec, runbook, adr" }]
     | none => [])

/-- The injected view of a documentation file: the frontmatter block's lines
(if the opening delimiter matches) and the tag tokens of the content. -/
structure MDXFile where
  frontmatter : Option (List String)
  tags : List Tag

/-- `validate_mdx`: a missing (or unreadable) file short-circuits to a
single-error invalid result; otherwise the filename, frontmatter and
component errors concatenate and `valid` is their emptiness. -/
def validateMDX (fs : String → Option MDXFile) (file_path : String) : ValidationResult :=
  match fs file_path with
  | none =>
    { valid := false,
      errors := [{ line := none, message := "File not found: " ++ file_path }],
      warnings := [] }
  | some f =>
    let errors := validateFilename file_path ++ validateFrontmatter f.frontmatter ++
      validateComponents f.tags
    { valid := errors.isEmpty, errors := errors, warnings := [] }

/-! ### Views and concrete inputs used by the claim theorems -/

/-- The `spec.forProvider` mapping of a parsed manifest, when present and a
mapping (the only case the extractor flattens). -/
def forProviderMap (data : YamlVal) : Option (List (String × YamlVal)) :=
  match data with
  | .map kvs =>
    match dictGet kvs "spec" with
    | some (.map skvs) =>
      match dictGet skvs "forProvider" with
      | some (.map fkvs) => some fkvs
      | _ => none
    | _ => none
  | _ => none

/-- The top-level keys of `spec.forProvider` as seen by the extractor. -/
def forProviderTopKeys (data : YamlVal) : List String :=
  ((forProviderMap data).getD []).map Prod.fst

/-- The manifest of the tags scenario:
`spec.forProvider.tags.{environment,team}`. -/
def tagsManifest : YamlVal :=
  YamlVal.map
    [("apiVersion", YamlVal.str "example.com/v1"),
     ("kind", YamlVal.str "Bucket"),
     ("spec", YamlVal.map
       [("forProvider", YamlVal.map
         [("tags", YamlVal.map
           [("environment", YamlVal.str "production"),
            ("team", YamlVal.str "platform")])])])]

/-- A manifest whose `spec.forProvider` mapping itself has a key named
`status`: its children become `status.`-prefixed parameter names. -/
def statusKeyManifest : YamlVal :=
  YamlVal.map
    [("spec", YamlVal.map
      [("forProvider", YamlVal.map
        [("status", YamlVal.map [("phase", YamlVal.str "Ready")])])])]

/-- A benign manifest whose `spec.forProvider` has a single `replicas`
key. -/
def c1GoodManifest : YamlVal :=
  YamlVal.map [("spec", YamlVal.map
    [("forProvider", YamlVal.map [("replicas", YamlVal.int 3)])])]

/-- The boundary the structured-data extractor returns on
`c1GoodManifest`. -/
def c1GoodBoundary : ContractBoundary :=
  { file_path := "composition.yaml", file_type := FileType.yaml,
    parameters :=
      [{ name := "replicas", type := some "integer", required := false,
         default := some (YamlVal.int 3), description := none }],
    metadata := [] }

/-- A manifest whose `spec.forProvider` exists but is a string, not a
mapping. -/
def stringForProviderManifest : YamlVal :=
  YamlVal.map [("spec", YamlVal.map [("forProvider", YamlVal.str "not-a-mapping")])]

/-- A one-file file system holding an empty (but well-formed) manifest. -/
def c9fs : String → Option SourceFile := fun p =>
  if p == "svc.yaml" then
    some { yamlParsed := some (YamlVal.map []), pyParsed := none,
           textLines := none, regoContent := none }
  else none

/-- Modelled from the spec: "traverse every declaration in the module
(order = depth-first declaration order as they appear)" — the parameter
sequence the specification describes, emitted along `dfsWalk` instead of the
source's `ast.walk`. -/
def dfsParams (mod : List Stmt) : List Parameter :=
  (dfsWalk mod).flatMap nodeParams

/-- A module with a public nested function: `a` (containing nested `b`)
followed by top-level `c`. -/
def bfsCexModule : List Stmt :=
  [Stmt.functionDef "a" [{ arg := "x", annotation := some "int" }] none
    [Stmt.functionDef "b" [{ arg := "y", annotation := some "int" }] none []],
   Stmt.functionDef "c" [{ arg := "z", annotation := some "int" }] none []]

/-- The boundary the source-code extractor returns on `bfsCexModule`. -/
def bfsCexBoundary : ContractBoundary :=
  { file_path := "mod.py", file_type := FileType.python,
    parameters :=
      [{ name := "a.x", type := some "int", required := true },
       { name := "c.z", type := some "int", required := true },
       { name := "b.y", type := some "int", required := true }],
    metadata := [] }

/-- A module consisting of one underscore-named class with an annotated
member. -/
def privateClassModule : List Stmt :=
  [Stmt.classDef "_Hidden" [Stmt.annAssign (some "x") "int"]]

/-- The parameter the extractor emits for `_Hidden.x`. -/
def hiddenParam : Parameter :=
  { name := "_Hidden.x", type := some "int", required := true }

/-- The boundary the source-code extractor returns on `privateClassModule`. -/
def privateClassBoundary : ContractBoundary :=
  { file_path := "mod.py", file_type := FileType.python,
    parameters := [hiddenParam],
    metadata := [("classes", MetaVal.strList ["_Hidden"])] }

/-- A document with a duplicated level-2 heading. -/
def dupDoc : List String :=
  ["# T", "## Foo", "A", "## Foo", "B"]

/-- The parameter the section extractor emits for the duplicated heading:
one entry, carrying the body of the last occurrence. -/
def fooParam : Parameter :=
  { name := "Foo", type := some "section", required := false,
    default := none, description := some "B" }

/-- The boundary the section extractor returns on `dupDoc`. -/
def dupDocBoundary : ContractBoundary :=
  { file_path := "runbook.md", file_type := FileType.markdown,
    parameters := [fooParam],
    metadata := [("title", MetaVal.str "T"), ("sections", MetaVal.strList ["Foo"])] }

/-- The token stream of the C3 scenario: a `<Step>` without a `title`
attribute nested inside a `<Steps>` that is never closed. -/
def stepsScenarioTags : List Tag :=
  [{ closing := false, name := "Steps", attrs := "", line := 1 },
   { closing := false, name := "Step", attrs := "", line := 2 }]

/-- The token stream of the C10 scenario: an unknown non-self-closing
component followed by an unmatched closing tag. -/
def unknownScenarioTags : List Tag :=
  [{ closing := false, name := "Widget", attrs := "", line := 1 },
   { closing := true, name := "Other", attrs := "", line := 2 }]

/-- A fully compliant self-closing `ParamField` token (`path` and `type`
attributes present; the raw attribute text ends in the `/`). -/
def goodParamFieldTag : Tag :=
  { closing := false, name := "ParamField",
    attrs := " path=\"config.host\" type=\"string\" /", line := 7 }

/-- A file system for the C6 counterexample: a kebab-named documentation
file whose components are perfect but which has no frontmatter block. -/
def c6cexFS : String → Option MDXFile := fun p =>
  if p == "guide.mdx" then some { frontmatter := none, tags := [goodParamFieldTag] }
  else none

/-- A file system for the C6 witness: the same compliant component stream
with a complete frontmatter block. -/
def c6goodFS : String → Option MDXFile := fun p =>
  if p == "guide.mdx" then
    some { frontmatter := some ["title: Guide", "category: spec", "description: A guide"],
           tags := [goodParamFieldTag] }
  else none

end ZT

namespace ZT

/-! ## Theorems -/

theorem yamlExtract_ok_fields {path : String} {parsed : Option YamlVal}
    {b : ContractBoundary} (h : yamlExtract path parsed = Except.ok b) :
    b.file_path = path ∧ b.file_type = FileType.yaml := by
  unfold yamlExtract at h
  repeat' split at h
  all_goals (try simp only [bind, Except.bind] at h)
  all_goals repeat' split at h
  all_goals (try (cases h))
  all_goals exact ⟨rfl, rfl⟩

theorem pythonExtract_ok_fields {path : String} {parsed : Option (List Stmt)}
    {b : ContractBoundary} (h : pythonExtract path parsed = Except.ok b) :
    b.file_path = path ∧ b.file_type = FileType.python := by
  unfold pythonExtract at h
  repeat' split at h
  all_goals (try (cases h))
  all_goals exact ⟨rfl, rfl⟩

theorem regoExtract_ok_fields {path : String} {parsed : Option RegoFile}
    {b : ContractBoundary} (h : regoExtract path parsed = Except.ok b) :
    b.file_path = path ∧ b.file_type = FileType.rego := by
  unfold regoExtract at h
  repeat' split at h
  all_goals (try (cases h))
  all_goals exact ⟨rfl, rfl⟩

theorem markdownExtract_ok_fields {path : String} {parsed : Option (List String)}
    {b : ContractBoundary} (h : markdownExtract path parsed = Except.ok b) :
    b.file_path = path ∧ b.file_type = FileType.markdown := by
  unfold markdownExtract at h
  repeat' split at h
  all_goals (try (cases h))
  all_goals exact ⟨rfl, rfl⟩

/-- C9: every successful `extract_contract_boundary` call returns a boundary
whose `file_path` equals the path argument and whose `file_type` equals the
suffix-detected type, which is never `unknown`. -/
theorem extract_boundary_path_and_type_c9 (fs : String → Option SourceFile)
    (path : String) (b : ContractBoundary)
    (h : extractContractBoundary fs path = Except.ok b) :
    b.file_path = path ∧ b.file_type = detectFileType path ∧
      detectFileType path ≠ FileType.unknown := by
  unfold extractContractBoundary at h
  cases hfs : fs path with
  | none => rw [hfs] at h; cases h
  | some f =>
    rw [hfs] at h
    cases hdt : detectFileType path with
    | unknown => rw [hdt] at h; cases h
    | yaml =>
      rw [hdt] at h
      obtain ⟨h1, h2⟩ := yamlExtract_ok_fields h
      exact ⟨h1, h2, by intro hc; cases hc⟩
    | python =>
      rw [hdt] at h
      obtain ⟨h1, h2⟩ := pythonExtract_ok_fields h
      exact ⟨h1, h2, by intro hc; cases hc⟩
    | rego =>
      rw [hdt] at h
      obtain ⟨h1, h2⟩ := regoExtract_ok_fields h
      exact ⟨h1, h2, by intro hc; cases hc⟩
    | markdown =>
      rw [hdt] at h
      obtain ⟨h1, h2⟩ := markdownExtract_ok_fields h
      exact ⟨h1, h2, by intro hc; cases hc⟩

/-- Witness for C9 at a concrete file system and path. -/
theorem extract_boundary_path_and_type_c9_witness :
    extractContractBoundary c9fs "svc.yaml" =
      Except.ok { file_path := "svc.yaml", file_type := FileType.yaml,
                  parameters := [], metadata := [] } ∧
    ("svc.yaml" = "svc.yaml" ∧ FileType.yaml = detectFileType "svc.yaml" ∧
      detectFileType "svc.yaml" ≠ FileType.unknown) := by
  have hok : extractContractBoundary c9fs "svc.yaml" =
      Except.ok { file_path := "svc.yaml", file_type := FileType.yaml,
                  parameters := [], metadata := [] } := by
    simp [extractContractBoundary, c9fs, detectFileType, pathSuffix, pathNameChars,
      splitOnChar, nameSplit, lastDotSuffix, toLowerStr, yamlExtract, dictGet,
      bind, Except.bind]
  exact ⟨hok, extract_boundary_path_and_type_c9 c9fs "svc.yaml" _ hok⟩

/-- C8: the tags-scenario manifest yields exactly the parameters `tags`
(object, no default), `tags.environment` (string, default "production") and
`tags.team` (string, default "platform"), each with `required = false`. -/
theorem yaml_tags_scenario_c8 :
    yamlExtract "composition.yaml" (some tagsManifest) =
      Except.ok
        { file_path := "composition.yaml", file_type := FileType.yaml,
          parameters :=
            [{ name := "tags", type := some "object", required := false,
               default := none, description := none },
             { name := "tags.environment", type := some "string", required := false,
               default := some (YamlVal.str "production"), description := none },
             { name := "tags.team", type := some "string", required := false,
               default := some (YamlVal.str "platform"), description := none }],
          metadata := [] } := by
  simp [yamlExtract, tagsManifest, dictGet, extractForProvider, flattenForProvider,
    extractMetadata, inferType, isScalarDefault, bind, Except.bind]

/-- C5: on a manifest whose root is a mapping but whose `spec.forProvider`
is a string, the extractor neither returns a `ContractBoundary` nor raises
`ContractExtractionError`: the unchecked `.items()` call raises
`AttributeError`, contradicting the documented error contract. -/
theorem yaml_forProvider_nonmapping_c5 :
    yamlExtract "composition.yaml" (some stringForProviderManifest) =
      Except.error (PyErr.attributeError "object has no attribute \x27items\x27") := by
  simp [yamlExtract, stringForProviderManifest, dictGet, extractForProvider,
    extractMetadata, bind, Except.bind]

/-- C3: in the tag-balance check, a closing tag whose name differs from the
innermost open tag (or arriving with no open tag) appends an error at the
closing tag's line and leaves the stack unchanged; after the scan, every
still-open tag yields an unclosed-tag error at its opening line; and the
`<Steps><Step>` scenario (missing `title`, no `</Steps>`) yields at least
the missing-title error and the unclosed-`Steps` error. -/
theorem tag_balance_c3 :
    (∀ (stack : List (String × Nat)) (errs : List ValidationError) (t : Tag) (rest : List Tag),
      t.closing = true →
      stack.head?.map Prod.fst ≠ some t.name →
      tagScan stack errs (t :: rest) = tagScan stack (errs ++ [mismatchError t]) rest) ∧
    (∀ tags : List Tag,
      checkUnclosedTags tags =
        (tagScan [] [] tags).1 ++ (tagScan [] [] tags).2.reverse.map unclosedError) ∧
    (∀ nl : String × Nat, unclosedError nl =
      { line := some nl.2, message := "Unclosed tag: <" ++ nl.1 ++ ">", severity := "error" }) ∧
    ({ line := some 2, message := "Step requires \x27title\x27 attribute",
       severity := "error" } : ValidationError) ∈ validateComponents stepsScenarioTags ∧
    ({ line := some 1, message := "Unclosed tag: <Steps>",
       severity := "error" } : ValidationError) ∈ validateComponents stepsScenarioTags := by
  have hscen : validateComponents stepsScenarioTags =
      [{ line := some 2, message := "Step requires \x27title\x27 attribute" },
       { line := some 1, message := "Unclosed tag: <Steps>" },
       { line := some 2, message := "Unclosed tag: <Step>" }] := by
    simp [validateComponents, stepsScenarioTags, componentCheck, componentTypes,
      containsSub, checkUnclosedTags, tagScan, Tag.selfClosing, unclosedError,
      componentTypesJoined]
  refine ⟨?_, ?_, ?_, ?_, ?_⟩
  · intro stack errs t rest ht hne
    cases stack with
    | nil => simp [tagScan, ht]
    | cons top tl =>
      have hb : (top.1 == t.name) = false := by
        apply beq_eq_false_iff_ne.mpr
        intro hcontr
        exact hne (by simp [hcontr])
      simp [tagScan, ht, hb]
  · intro tags; rfl
  · intro nl; rfl
  · rw [hscen]; simp
  · rw [hscen]; simp

/-- Witness for the mismatched-closing-tag clause of C3 at a concrete stack
and token. -/
theorem tag_balance_c3_witness :
    tagScan [("Steps", 1)] [] [{ closing := true, name := "Other", attrs := "", line := 5 }] =
      tagScan [("Steps", 1)]
        ([] ++ [mismatchError { closing := true, name := "Other", attrs := "", line := 5 }]) [] :=
  tag_balance_c3.1 [("Steps", 1)] [] _ [] rfl (by decide)

/-- C10: the tag-balance scan tracks every tag-like token regardless of the
component whitelist — a non-self-closing tag with an unknown name is pushed
onto the stack exactly like a whitelisted one, and can then produce
mismatch and unclosed-tag errors in addition to the unknown-component
error, as the concrete `<Widget></Other>` document shows. -/
theorem tag_balance_unknown_component_c10 :
    (∀ (stack : List (String × Nat)) (errs : List ValidationError) (t : Tag) (rest : List Tag),
      t.closing = false → t.selfClosing = false →
      componentTypes.contains t.name = false →
      tagScan stack errs (t :: rest) = tagScan ((t.name, t.line) :: stack) errs rest) ∧
    validateComponents unknownScenarioTags =
      [{ line := some 1,
         message := "Unknown component: Widget. Allowed: ParamField, Step, Steps, CodeBlock, Callout" },
       { line := some 2, message := "Closing tag </Other> without matching opening tag" },
       { line := some 1, message := "Unclosed tag: <Widget>" }] := by
  constructor
  · intro stack errs t rest ht hsc _
    simp [tagScan, ht, hsc]
  · simp [validateComponents, unknownScenarioTags, componentCheck, componentTypes,
      containsSub, checkUnclosedTags, tagScan, Tag.selfClosing, unclosedError,
      mismatchError, componentTypesJoined]

/-- Witness for the push clause of C10 at a concrete unknown component. -/
theorem tag_balance_unknown_component_c10_witness :
    tagScan [] [] [{ closing := false, name := "Widget", attrs := "", line := 1 }] =
      tagScan [("Widget", 1)] [] [] :=
  tag_balance_unknown_component_c10.1 [] [] _ [] rfl (by decide) (by decide)

/-- C6 counterexample: a documentation file whose single component is
perfectly balanced (self-closing) and carries both required attributes is
still reported invalid when the file has no frontmatter block, so component
compliance alone does not give `valid == true`. -/
theorem mdx_roundtrip_c6_cex :
    validateComponents [goodParamFieldTag] = [] ∧
    (validateMDX c6cexFS "guide.mdx").valid = false := by
  constructor
  · simp [validateComponents, goodParamFieldTag, componentCheck, componentTypes,
      containsSub, checkUnclosedTags, tagScan, Tag.selfClosing]
  · simp [validateMDX, c6cexFS, validateFilename, validateFrontmatter, validateComponents,
      goodParamFieldTag, componentCheck, componentTypes, containsSub, checkUnclosedTags,
      tagScan, Tag.selfClosing, pathStem, pathSuffix, pathNameChars, splitOnChar,
      nameSplit, lastDotSuffix, kebabOk, isKebabChar, hasTimestamp, tsAt]

/-- C6 (amended): when additionally the filename and frontmatter checks
pass and every component name is whitelisted, a document with no
tag-balance violation whose `ParamField`s carry `path` and `type` and whose
`Step`s carry `title` validates with `valid == true` and no errors; the
attribute requirements are substring tests on the raw attribute text, so
the order in which attributes are written is immaterial. -/
theorem mdx_roundtrip_valid_c6 (fs : String → Option MDXFile) (path : String)
    (f : MDXFile) (hfs : fs path = some f)
    (hfile : validateFilename path = [])
    (hfm : validateFrontmatter f.frontmatter = [])
    (hwl : ∀ t ∈ f.tags, componentTypes.contains t.name = true)
    (hpf : ∀ t ∈ f.tags, t.name = "ParamField" →
      (containsSub "path=".data t.attrs.data || containsSub "path =".data t.attrs.data) = true ∧
      (containsSub "type=".data t.attrs.data || containsSub "type =".data t.attrs.data) = true)
    (hstep : ∀ t ∈ f.tags, t.name = "Step" →
      (containsSub "title=".data t.attrs.data || containsSub "title =".data t.attrs.data) = true)
    (hbal : checkUnclosedTags f.tags = []) :
    validateMDX fs path = { valid := true, errors := [], warnings := [] } := by
  have hcomp : validateComponents f.tags = [] := by
    unfold validateComponents
    rw [hbal, List.append_nil]
    rw [List.flatMap_eq_nil_iff]
    intro t htmem
    have htags : t ∈ f.tags := (List.mem_filter.mp htmem).1
    by_cases hn1 : t.name = "ParamField"
    · obtain ⟨hp, hq⟩ := hpf t htags hn1
      simp [componentCheck, hwl t htags, hn1, hp, hq, componentTypes]
    · by_cases hn2 : t.name = "Step"
      · have hts := hstep t htags hn2
        simp [componentCheck, hwl t htags, hn1, hn2, hts, componentTypes]
      · have hmem : t.name = "Steps" ∨ t.name = "CodeBlock" ∨ t.name = "Callout" := by
          have h := hwl t htags
          simp [componentTypes, hn1, hn2] at h
          tauto
        rcases hmem with h | h | h <;>
          simp [componentCheck, hwl t htags, hn1, hn2, h, componentTypes]
  unfold validateMDX
  rw [hfs]
  simp [hfile, hfm, hcomp]

/-- Witness for C6 at a concrete compliant file. -/
theorem mdx_roundtrip_valid_c6_witness :
    validateMDX c6goodFS "guide.mdx" = { valid := true, errors := [], warnings := [] } := by
  apply mdx_roundtrip_valid_c6 c6goodFS "guide.mdx"
    { frontmatter := some ["title: Guide", "category: spec", "description: A guide"],
      tags := [goodParamFieldTag] }
  · simp [c6goodFS]
  · simp [validateFilename, pathStem, pathSuffix, pathNameChars, splitOnChar, nameSplit,
      lastDotSuffix, kebabOk, isKebabChar, hasTimestamp, tsAt]
  · simp [validateFrontmatter, categoryValue, categoryMatch, findCont, trimChars]
  · intro t ht
    simp only [List.mem_singleton] at ht
    subst ht
    decide
  · intro t ht
    simp only [List.mem_singleton] at ht
    subst ht
    intro _
    constructor <;> decide
  · intro t ht
    simp only [List.mem_singleton] at ht
    subst ht
    intro hs
    exact absurd hs (by decide)
  · decide

theorem collectNodes_params : ∀ ns : List Stmt, (collectNodes ns).1 = ns.flatMap nodeParams := by
  intro ns
  induction ns with
  | nil => rfl
  | cons n rest ih => simp [collectNodes, ih]

theorem collectNodes_classes_mem {c : String} {body : List Stmt} :
    ∀ {ns : List Stmt}, Stmt.classDef c body ∈ ns → c ∈ (collectNodes ns).2 := by
  intro ns
  induction ns with
  | nil => intro h; cases h
  | cons n rest ih =>
    intro h
    rcases List.mem_cons.mp h with h | h
    · subst h; simp [collectNodes]
    · have := ih h
      cases n <;> simp [collectNodes, this]

theorem collectNodes_param_source {p : Parameter} :
    ∀ {ns : List Stmt}, p ∈ (collectNodes ns).1 → ∃ n ∈ ns, p ∈ nodeParams n := by
  intro ns
  induction ns with
  | nil => intro h; cases h
  | cons n rest ih =>
    intro h
    rw [show (collectNodes (n :: rest)).1 = nodeParams n ++ (collectNodes rest).1 by
      simp [collectNodes]] at h
    rcases List.mem_append.mp h with h | h
    · exact ⟨n, List.mem_cons_self n rest, h⟩
    · obtain ⟨m, hm, hp⟩ := ih h
      exact ⟨m, List.mem_cons_of_mem n hm, hp⟩

theorem nodeParams_owner {p : Parameter} {n : Stmt} (h : p ∈ nodeParams n) :
    ∃ owner rest, p.name = owner ++ "." ++ rest ∧
      ((∃ body, n = Stmt.classDef owner body) ∨ startsWithUnderscore owner = false) := by
  cases n with
  | functionDef name args ret body =>
    cases hu : startsWithUnderscore name with
    | true => simp [nodeParams, hu] at h
    | false =>
      rw [show nodeParams (Stmt.functionDef name args ret body) =
        extractFunctionParams name args ret by simp [nodeParams, hu]] at h
      unfold extractFunctionParams at h
      rcases List.mem_append.mp h with h | h
      · obtain ⟨a, _, rfl⟩ := List.mem_map.mp h
        exact ⟨name, a.arg, rfl, Or.inr hu⟩
      · cases ret with
        | none => cases h
        | some r =>
          rw [List.mem_singleton] at h
          subst h
          refine ⟨name, "return", ?_, Or.inr hu⟩
          rw [String.append_assoc]
          rfl
  | asyncFunctionDef name args ret body =>
    cases hu : startsWithUnderscore name with
    | true => simp [nodeParams, hu] at h
    | false =>
      rw [show nodeParams (Stmt.asyncFunctionDef name args ret body) =
        extractFunctionParams name args ret by simp [nodeParams, hu]] at h
      unfold extractFunctionParams at h
      rcases List.mem_append.mp h with h | h
      · obtain ⟨a, _, rfl⟩ := List.mem_map.mp h
        exact ⟨name, a.arg, rfl, Or.inr hu⟩
      · cases ret with
        | none => cases h
        | some r =>
          rw [List.mem_singleton] at h
          subst h
          refine ⟨name, "return", ?_, Or.inr hu⟩
          rw [String.append_assoc]
          rfl
  | classDef cname body =>
    rw [show nodeParams (Stmt.classDef cname body) = extractClassParams cname body from rfl] at h
    unfold extractClassParams at h
    obtain ⟨item, _, hitem⟩ := List.mem_filterMap.mp h
    cases item with
    | annAssign target ann =>
      cases target with
      | none => cases hitem
      | some tname =>
        simp only [Option.some.injEq] at hitem
        subst hitem
        exact ⟨cname, tname, rfl, Or.inl ⟨body, rfl⟩⟩
    | functionDef _ _ _ _ => cases hitem
    | asyncFunctionDef _ _ _ _ => cases hitem
    | classDef _ _ => cases hitem
    | other _ => cases hitem
  | annAssign target ann => cases h
  | other children => cases h

theorem pythonExtract_ok_parameters {path : String} {mod : List Stmt}
    {b : ContractBoundary} (h : pythonExtract path (some mod) = Except.ok b) :
    b.parameters = (collectNodes (bfsWalk mod)).1 := by
  simp only [pythonExtract] at h
  cases h
  rfl

/-- C2 counterexample: a module with a class named `_Hidden` and one
annotated member extracts the parameter `_Hidden.x`, whose leading class
segment `_Hidden` starts with an underscore. -/
theorem python_underscore_c2_cex :
    (pythonExtract "mod.py" (some privateClassModule)).map
        (fun b => b.parameters.map (fun p => p.name)) = Except.ok ["_Hidden.x"] ∧
    "_Hidden.x" = "_Hidden" ++ "." ++ "x" ∧
    startsWithUnderscore "_Hidden" = true := by
  refine ⟨?_, rfl, rfl⟩
  simp [pythonExtract, privateClassModule, bfsWalk, collectNodes, nodeParams,
    extractClassParams, stmtChildren, Except.map]

/-- C2 (amended): every extracted parameter name is `owner.member` where the
owner segment is either the name of a visited class declaration (recorded in
the `classes` metadata list, with no underscore filter) or a function name
that does not start with an underscore; only function declarations are
subject to the underscore filter. -/
theorem python_underscore_c2 (path : String) (mod : List Stmt) (b : ContractBoundary)
    (h : pythonExtract path (some mod) = Except.ok b) :
    ∀ p ∈ b.parameters, ∃ owner rest, p.name = owner ++ "." ++ rest ∧
      (owner ∈ (collectNodes (bfsWalk mod)).2 ∨ startsWithUnderscore owner = false) := by
  intro p hp
  rw [pythonExtract_ok_parameters h] at hp
  obtain ⟨n, hn, hpn⟩ := collectNodes_param_source hp
  obtain ⟨owner, rest, hname, howner⟩ := nodeParams_owner hpn
  refine ⟨owner, rest, hname, ?_⟩
  rcases howner with ⟨body, rfl⟩ | hu
  · exact Or.inl (collectNodes_classes_mem hn)
  · exact Or.inr hu

/-- Witness for C2 at the `_Hidden` module and its single parameter. -/
theorem python_underscore_c2_witness :
    pythonExtract "mod.py" (some privateClassModule) = Except.ok privateClassBoundary ∧
    hiddenParam ∈ privateClassBoundary.parameters ∧
    (∃ owner rest, hiddenParam.name = owner ++ "." ++ rest ∧
      (owner ∈ (collectNodes (bfsWalk privateClassModule)).2 ∨
        startsWithUnderscore owner = false)) := by
  have hok : pythonExtract "mod.py" (some privateClassModule) =
      Except.ok privateClassBoundary := by
    simp [pythonExtract, privateClassModule, privateClassBoundary, bfsWalk, collectNodes,
      nodeParams, extractClassParams, stmtChildren, hiddenParam]
  have hmem : hiddenParam ∈ privateClassBoundary.parameters := by
    simp [privateClassBoundary]
  exact ⟨hok, hmem,
    python_underscore_c2 "mod.py" privateClassModule privateClassBoundary hok hiddenParam hmem⟩

theorem bfsWalk_queue : ∀ (q1 q2 : List Stmt),
    bfsWalk (q1 ++ q2) = q1 ++ bfsWalk (q2 ++ q1.flatMap stmtChildren) := by
  intro q1
  induction q1 with
  | nil => intro q2; simp
  | cons s t ih =>
    intro q2
    rw [List.cons_append, bfsWalk]
    rw [List.append_assoc t q2 (stmtChildren s)]
    rw [ih (q2 ++ stmtChildren s)]
    simp [List.append_assoc]

theorem bfsWalk_levels (q : List Stmt) :
    bfsWalk q = q ++ bfsWalk (q.flatMap stmtChildren) := by
  have h := bfsWalk_queue q []
  simpa using h

/-- C7 counterexample: on a module with a nested public function, the
extractor emits the nested declaration after all top-level ones (breadth
first), not at its depth-first position as the claim states. -/
theorem python_traversal_c7_cex :
    (pythonExtract "mod.py" (some bfsCexModule)).map
        (fun b => b.parameters.map (fun p => p.name)) =
      Except.ok ["a.x", "c.z", "b.y"] ∧
    (dfsParams bfsCexModule).map (fun p => p.name) = ["a.x", "b.y", "c.z"] ∧
    (["a.x", "c.z", "b.y"] : List String) ≠ ["a.x", "b.y", "c.z"] := by
  refine ⟨?_, ?_, by decide⟩
  · simp [pythonExtract, bfsCexModule, bfsWalk, collectNodes, nodeParams,
      extractFunctionParams, stmtChildren, startsWithUnderscore, Except.map]
  · simp [dfsParams, bfsCexModule, dfsWalk, nodeParams, extractFunctionParams,
      stmtChildren, startsWithUnderscore]

/-- C7 (amended): the extractor traverses the module with `ast.walk`, i.e.
in breadth-first level order — each level of declarations is visited in
source order before any deeper level — and the parameter sequence is the
concatenation of each visited node's parameters in that order. -/
theorem python_traversal_bfs_c7 (path : String) (mod : List Stmt) (b : ContractBoundary)
    (h : pythonExtract path (some mod) = Except.ok b) :
    b.parameters = (bfsWalk mod).flatMap nodeParams ∧
    bfsWalk mod = mod ++ bfsWalk (mod.flatMap stmtChildren) := by
  refine ⟨?_, bfsWalk_levels mod⟩
  rw [pythonExtract_ok_parameters h]
  exact collectNodes_params _

/-- Witness for C7 at the nested-function module. -/
theorem python_traversal_bfs_c7_witness :
    bfsCexBoundary.parameters = (bfsWalk bfsCexModule).flatMap nodeParams ∧
    bfsWalk bfsCexModule = bfsCexModule ++ bfsWalk (bfsCexModule.flatMap stmtChildren) := by
  have hok : pythonExtract "mod.py" (some bfsCexModule) = Except.ok bfsCexBoundary := by
    simp [pythonExtract, bfsCexModule, bfsCexBoundary, bfsWalk, collectNodes, nodeParams,
      extractFunctionParams, stmtChildren, startsWithUnderscore]
  exact python_traversal_bfs_c7 "mod.py" bfsCexModule bfsCexBoundary hok

theorem h2Headings_splitBody : ∀ ls : List String,
    h2Headings (splitBody ls).2 = h2Headings ls := by
  intro ls
  induction ls with
  | nil => rfl
  | cons x xs ih =>
    rw [splitBody]
    cases hm : h2Match x xs with
    | some hn => rfl
    | none =>
      simp only []
      rw [ih]
      rw [h2Headings, hm]

theorem sectionsSplit_keys : ∀ lines : List String,
    (sectionsSplit lines).map Prod.fst = h2Headings lines := by
  intro lines
  induction lines using sectionsSplit.induct with
  | case1 => simp [sectionsSplit, h2Headings]
  | case2 l rest hn hh ih =>
    rw [sectionsSplit, h2Headings]
    simp only [hh, List.map_cons]
    rw [ih, h2Headings_splitBody]
  | case3 l rest hh ih =>
    rw [sectionsSplit, h2Headings]
    simp only [hh]
    exact ih

theorem upsert_keys (d : List (String × String)) (k v : String) :
    (upsert d k v).map Prod.fst =
      if d.any (fun kv => kv.1 == k) then d.map Prod.fst
      else d.map Prod.fst ++ [k] := by
  unfold upsert
  split
  · rw [List.map_map]
    apply List.map_congr_left
    intro kv _
    by_cases hb : (kv.1 == k) = true
    · simp only [Function.comp, hb, if_pos]
      exact (beq_iff_eq.mp hb).symm
    · simp only [Function.comp, if_neg hb]
  · simp

theorem any_upsert (d : List (String × String)) (k v k' : String) :
    (upsert d k v).any (fun kv => kv.1 == k') =
      (d.any (fun kv => kv.1 == k') || (k == k')) := by
  have hkeys : ∀ e : List (String × String),
      (e.map Prod.fst).any (fun x => x == k') = e.any (fun kv => kv.1 == k') := by
    intro e
    induction e with
    | nil => rfl
    | cons kv t ih => simp [List.map_cons, List.any_cons, ih]
  rw [← hkeys (upsert d k v), upsert_keys]
  by_cases h0 : d.any (fun kv => kv.1 == k) = true
  · rw [if_pos h0, hkeys]
    by_cases hk : k = k'
    · subst hk
      simp [h0]
    · have hbf : (k == k') = false := beq_eq_false_iff_ne.mpr hk
      simp [hbf]
  · rw [if_neg h0]
    rw [List.any_append, hkeys]
    simp

theorem upsert_mem {d : List (String × String)} {k v : String} {kv : String × String}
    (h : kv ∈ upsert d k v) : kv ∈ d ∨ kv = (k, v) := by
  unfold upsert at h
  split at h
  · obtain ⟨x, hx, hfx⟩ := List.mem_map.mp h
    by_cases hb : (x.1 == k) = true
    · rw [if_pos hb] at hfx
      exact Or.inr hfx.symm
    · rw [if_neg hb] at hfx
      exact Or.inl (hfx ▸ hx)
  · rcases List.mem_append.mp h with h | h
    · exact Or.inl h
    · exact Or.inr (List.mem_singleton.mp h)

theorem foldl_upsert_mem :
    ∀ (os : List (String × List String)) (d : List (String × String)) (kv : String × String),
      kv ∈ os.foldl (fun d hv => upsert d hv.1 (sectionBody hv.2)) d →
      kv ∈ d ∨ ∃ o ∈ os, kv = (o.1, sectionBody o.2) := by
  intro os
  induction os with
  | nil =>
    intro d kv h
    exact Or.inl h
  | cons o os' ih =>
    intro d kv h
    rw [List.foldl_cons] at h
    rcases ih _ kv h with h' | ⟨o', ho', hkv⟩
    · rcases upsert_mem h' with h2 | h2
      · exact Or.inl h2
      · exact Or.inr ⟨o, List.mem_cons_self o os', h2⟩
    · exact Or.inr ⟨o', List.mem_cons_of_mem o ho', hkv⟩

theorem foldl_upsert_keys :
    ∀ (os : List (String × List String)) (d : List (String × String)),
      ((os.foldl (fun d hv => upsert d hv.1 (sectionBody hv.2)) d).map Prod.fst) =
        d.map Prod.fst ++
          dedupKeepFirst ((os.map Prod.fst).filter
            (fun k => !(d.any (fun kv => kv.1 == k)))) := by
  intro os
  induction os with
  | nil =>
    intro d
    simp [dedupKeepFirst]
  | cons o os' ih =>
    intro d
    rw [List.foldl_cons]
    rw [ih (upsert d o.1 (sectionBody o.2))]
    rw [upsert_keys]
    by_cases h0 : d.any (fun kv => kv.1 == o.1) = true
    · rw [if_pos h0]
      congr 1
      rw [List.map_cons, List.filter_cons]
      have hfalse : (!(d.any (fun kv => kv.1 == o.1))) = false := by simp [h0]
      rw [hfalse]
      simp only [Bool.false_eq_true, if_false]
      apply congrArg
      apply List.filter_congr
      intro k _
      rw [any_upsert]
      by_cases hko : o.1 = k
      · subst hko
        simp [h0]
      · have hbf : (o.1 == k) = false := beq_eq_false_iff_ne.mpr hko
        simp [hbf]
    · rw [if_neg h0]
      have hfa : d.any (fun kv => kv.1 == o.1) = false := by
        revert h0
        cases d.any (fun kv => kv.1 == o.1) <;> simp
      rw [List.map_cons, List.filter_cons]
      have htrue : (!(d.any (fun kv => kv.1 == o.1))) = true := by simp [hfa]
      rw [htrue]
      simp only [if_true]
      rw [show dedupKeepFirst (o.1 :: ((os'.map Prod.fst).filter
            (fun k => !(d.any (fun kv => kv.1 == k))))) =
          o.1 :: dedupKeepFirst ((((os'.map Prod.fst).filter
            (fun k => !(d.any (fun kv => kv.1 == k)))).filter (fun y => y != o.1)))
        from by rw [dedupKeepFirst]]
      rw [List.filter_filter]
      rw [List.append_assoc, List.singleton_append]
      congr 2
      apply congrArg
      apply List.filter_congr
      intro k _
      rw [any_upsert]
      by_cases hko : o.1 = k
      · subst hko
        simp [hfa]
      · have hbf : (o.1 == k) = false := beq_eq_false_iff_ne.mpr hko
        have hbf2 : (k == o.1) = false := beq_eq_false_iff_ne.mpr (fun hc => hko hc.symm)
        simp [hbf, hbf2, hfa]
        exact fun _ hc => hko hc.symm

theorem markdownExtract_ok_parameters {path : String} {lines : List String}
    {b : ContractBoundary} (h : markdownExtract path (some lines) = Except.ok b) :
    b.parameters = (extractSections lines).map (fun kv =>
      ({ name := kv.1, type := some "section", required := false, default := none,
         description := if kv.2 ≠ "" then some (take200 kv.2) else none } : Parameter)) := by
  simp only [markdownExtract] at h
  cases h
  rfl

/-- C4 counterexample: duplicated level-2 headings collapse onto one
parameter (the sections live in a dictionary keyed by heading text), so the
parameter list is not one-per-heading-occurrence. -/
theorem markdown_sections_c4_cex :
    (markdownExtract "runbook.md" (some dupDoc)).map
        (fun b => b.parameters.map (fun p => p.name)) = Except.ok ["Foo"] ∧
    h2Headings dupDoc = ["Foo", "Foo"] ∧
    (["Foo"] : List String) ≠ ["Foo", "Foo"] := by
  refine ⟨?_, ?_, by decide⟩
  · simp [markdownExtract, dupDoc, extractSections, sectionsSplit, h2Match, h1Match,
      markerCapture, findCont, titleOf, splitBody, trimChars, sectionBody, joinLines,
      upsert, take200, Except.map]
  · simp [dupDoc, h2Headings, h2Match, markerCapture, findCont, trimChars, splitBody]

/-- C4 (amended): the extracted parameter names are exactly the distinct
level-2 heading match texts in scan order of first occurrence (duplicate
headings merge onto one entry), and every parameter description is the
200-character truncation of the body of one of that heading\'s section
occurrences — text outside the level-2 sections never becomes a
description. -/
theorem markdown_sections_c4 (path : String) (lines : List String) (b : ContractBoundary)
    (h : markdownExtract path (some lines) = Except.ok b) :
    b.parameters.map (fun p => p.name) = dedupKeepFirst (h2Headings lines) ∧
    (∀ p ∈ b.parameters, p.description = none ∨
      ∃ occ ∈ sectionsSplit lines, occ.1 = p.name ∧ sectionBody occ.2 ≠ "" ∧
        p.description = some (take200 (sectionBody occ.2))) := by
  have hb := markdownExtract_ok_parameters h
  constructor
  · rw [hb, List.map_map]
    have hmf : (extractSections lines).map ((fun p : Parameter => p.name) ∘
        (fun kv : String × String =>
          ({ name := kv.1, type := some "section", required := false, default := none,
             description := if kv.2 ≠ "" then some (take200 kv.2) else none } : Parameter))) =
        (extractSections lines).map Prod.fst :=
      List.map_congr_left (fun kv _ => rfl)
    rw [hmf]
    rw [show extractSections lines =
      (sectionsSplit lines).foldl (fun d hv => upsert d hv.1 (sectionBody hv.2)) [] from rfl]
    rw [foldl_upsert_keys]
    simp only [List.map_nil, List.any_nil, Bool.not_false, List.filter_true, List.nil_append]
    rw [sectionsSplit_keys]
  · intro p hp
    rw [hb] at hp
    obtain ⟨kv, hkv, rfl⟩ := List.mem_map.mp hp
    rcases foldl_upsert_mem (sectionsSplit lines) [] kv hkv with h' | ⟨occ, hocc, rfl⟩
    · cases h'
    · by_cases hne : sectionBody occ.2 = ""
      · left
        simp [hne]
      · right
        exact ⟨occ, hocc, rfl, hne, by simp [hne]⟩

/-- Witness for C4 at the duplicated-heading document and its single
parameter. -/
theorem markdown_sections_c4_witness :
    markdownExtract "runbook.md" (some dupDoc) = Except.ok dupDocBoundary ∧
    dupDocBoundary.parameters.map (fun p => p.name) = dedupKeepFirst (h2Headings dupDoc) ∧
    (fooParam.description = none ∨
      ∃ occ ∈ sectionsSplit dupDoc, occ.1 = fooParam.name ∧ sectionBody occ.2 ≠ "" ∧
        fooParam.description = some (take200 (sectionBody occ.2))) := by
  have hok : markdownExtract "runbook.md" (some dupDoc) = Except.ok dupDocBoundary := by
    simp [markdownExtract, dupDoc, dupDocBoundary, fooParam, extractSections, sectionsSplit,
      h2Match, h1Match, markerCapture, findCont, titleOf, splitBody, trimChars,
      sectionBody, joinLines, upsert, take200]
  have hthm := markdown_sections_c4 "runbook.md" dupDoc dupDocBoundary hok
  exact ⟨hok, hthm.1, hthm.2 fooParam (by simp [dupDocBoundary])⟩

theorem prefixComparable {l1 l2 l3 : List Char} (h1 : l1 <+: l3) (h2 : l2 <+: l3) :
    l1 <+: l2 ∨ l2 <+: l1 :=
  List.prefix_or_prefix_of_prefix h1 h2

theorem append_singleton_prefix {x : Char} {a b : List Char} (hx : x ∉ b)
    (h : a ++ [x] <+: b ++ [x]) : a = b := by
  obtain ⟨u, hu⟩ := h
  rcases List.eq_nil_or_concat u with rfl | ⟨w, y, rfl⟩
  · rw [List.append_nil] at hu
    exact (List.append_inj' hu rfl).1
  · rw [List.concat_eq_append, ← List.append_assoc] at hu
    obtain ⟨h3, h4⟩ := List.append_inj' hu rfl
    exfalso
    apply hx
    rw [← h3]
    exact List.mem_append.mpr (Or.inl (List.mem_append.mpr (Or.inr (List.mem_singleton.mpr rfl))))

theorem statusDot_block {k t : String}
    (hk : ¬ ("status.".data <+: (k ++ ".").data))
    (ht : t = "" ∨ ∃ r, t = "." ++ r) :
    ¬ ("status.".data <+: (k ++ t).data) := by
  intro hpre
  rcases ht with rfl | ⟨r, rfl⟩
  · apply hk
    rw [String.append_empty] at hpre
    refine hpre.trans ?_
    rw [String.data_append]
    exact List.prefix_append _ _
  · have hdata : (k ++ ("." ++ r)).data = (k.data ++ ['.']) ++ r.data := by
      rw [String.data_append, String.data_append, ← List.append_assoc]
    rw [hdata] at hpre
    rcases prefixComparable hpre (List.prefix_append (k.data ++ ['.']) r.data) with hc | hc
    · apply hk
      rw [String.data_append]
      exact hc
    · have hss : (k.data ++ ['.']) <+: ("status".data ++ ['.']) := hc
      have hkd : k.data = "status".data := append_singleton_prefix (by decide) hss
      apply hk
      rw [String.data_append, hkd]
      exact List.prefix_refl _

theorem flatten_name_shape :
    ∀ (pre : String) (kvs : List (String × YamlVal)) (p : Parameter),
      p ∈ flattenForProvider pre kvs →
      ∃ k t, k ∈ kvs.map Prod.fst ∧ p.name = pre ++ (k ++ t) ∧
        (t = "" ∨ ∃ r, t = "." ++ r) := by
  intro pre kvs
  induction pre, kvs using flattenForProvider.induct with
  | case1 pre =>
    intro p hp
    simp [flattenForProvider] at hp
  | case2 pre k v rest pname ih1 ih2 =>
    intro p hp
    cases v with
    | map kvs2 =>
      rw [flattenForProvider] at hp
      rcases List.mem_cons.mp hp with rfl | hp2
      · refine ⟨k, "", List.mem_cons_self _ _, ?_, Or.inl rfl⟩
        rw [String.append_empty]
      · rcases List.mem_append.mp hp2 with hp3 | hp3
        · obtain ⟨k2, t2, hk2, hname, ht2⟩ := ih1 p hp3
          refine ⟨k, "." ++ (k2 ++ t2), List.mem_cons_self _ _, ?_, Or.inr ⟨k2 ++ t2, rfl⟩⟩
          rw [hname]
          rw [String.append_assoc, String.append_assoc]
        · obtain ⟨k2, t2, hk2, hname, ht2⟩ := ih2 p hp3
          exact ⟨k2, t2, List.mem_cons_of_mem _ hk2, hname, ht2⟩
    | null =>
      rw [flattenForProvider] at hp
      rcases List.mem_cons.mp hp with rfl | hp2
      · refine ⟨k, "", List.mem_cons_self _ _, ?_, Or.inl rfl⟩
        rw [String.append_empty]
      · rw [List.nil_append] at hp2
        obtain ⟨k2, t2, hk2, hname, ht2⟩ := ih2 p hp2
        exact ⟨k2, t2, List.mem_cons_of_mem _ hk2, hname, ht2⟩
      intro kvs2 hkv
      cases hkv
    | bool b2 =>
      rw [flattenForProvider] at hp
      rcases List.mem_cons.mp hp with rfl | hp2
      · refine ⟨k, "", List.mem_cons_self _ _, ?_, Or.inl rfl⟩
        rw [String.append_empty]
      · rw [List.nil_append] at hp2
        obtain ⟨k2, t2, hk2, hname, ht2⟩ := ih2 p hp2
        exact ⟨k2, t2, List.mem_cons_of_mem _ hk2, hname, ht2⟩
      intro kvs2 hkv
      cases hkv
    | int n2 =>
      rw [flattenForProvider] at hp
      rcases List.mem_cons.mp hp with rfl | hp2
      · refine ⟨k, "", List.mem_cons_self _ _, ?_, Or.inl rfl⟩
        rw [String.append_empty]
      · rw [List.nil_append] at hp2
        obtain ⟨k2, t2, hk2, hname, ht2⟩ := ih2 p hp2
        exact ⟨k2, t2, List.mem_cons_of_mem _ hk2, hname, ht2⟩
      intro kvs2 hkv
      cases hkv
    | float =>
      rw [flattenForProvider] at hp
      rcases List.mem_cons.mp hp with rfl | hp2
      · refine ⟨k, "", List.mem_cons_self _ _, ?_, Or.inl rfl⟩
        rw [String.append_empty]
      · rw [List.nil_append] at hp2
        obtain ⟨k2, t2, hk2, hname, ht2⟩ := ih2 p hp2
        exact ⟨k2, t2, List.mem_cons_of_mem _ hk2, hname, ht2⟩
      intro kvs2 hkv
      cases hkv
    | str s2 =>
      rw [flattenForProvider] at hp
      rcases List.mem_cons.mp hp with rfl | hp2
      · refine ⟨k, "", List.mem_cons_self _ _, ?_, Or.inl rfl⟩
        rw [String.append_empty]
      · rw [List.nil_append] at hp2
        obtain ⟨k2, t2, hk2, hname, ht2⟩ := ih2 p hp2
        exact ⟨k2, t2, List.mem_cons_of_mem _ hk2, hname, ht2⟩
      intro kvs2 hkv
      cases hkv
    | list xs2 =>
      rw [flattenForProvider] at hp
      rcases List.mem_cons.mp hp with rfl | hp2
      · refine ⟨k, "", List.mem_cons_self _ _, ?_, Or.inl rfl⟩
        rw [String.append_empty]
      · rw [List.nil_append] at hp2
        obtain ⟨k2, t2, hk2, hname, ht2⟩ := ih2 p hp2
        exact ⟨k2, t2, List.mem_cons_of_mem _ hk2, hname, ht2⟩
      intro kvs2 hkv
      cases hkv

theorem extractForProvider_ok {v : YamlVal} {ps : List Parameter}
    (h : extractForProvider v = Except.ok ps) :
    ∃ fkvs, v = YamlVal.map fkvs ∧ ps = flattenForProvider "" fkvs := by
  cases v with
  | map kvs =>
    refine ⟨kvs, rfl, ?_⟩
    simp only [extractForProvider, Except.ok.injEq] at h
    exact h.symm
  | null => cases h
  | bool b2 => cases h
  | int n2 => cases h
  | float => cases h
  | str s2 => cases h
  | list xs2 => cases h

theorem yamlExtract_ok_params {path : String} {data : YamlVal} {b : ContractBoundary}
    (h : yamlExtract path (some data) = Except.ok b) :
    b.parameters = (match forProviderMap data with
      | some fkvs => flattenForProvider "" fkvs
      | none => ([] : List Parameter)) := by
  cases data with
  | null => simp [yamlExtract] at h
  | bool b2 => simp [yamlExtract] at h
  | int n2 => simp [yamlExtract] at h
  | float => simp [yamlExtract] at h
  | str s2 => simp [yamlExtract] at h
  | list xs2 => simp [yamlExtract] at h
  | map kvs =>
    simp only [yamlExtract, bind, Except.bind] at h
    unfold forProviderMap
    repeat' split at h
    all_goals (try (cases h))
    all_goals (try simp_all)
    all_goals
      (obtain ⟨fkvs, hfk1, hfk2⟩ := extractForProvider_ok (by assumption)
       subst hfk1
       subst hfk2
       simp)

/-- C1 counterexample: a manifest whose `spec.forProvider` mapping itself
contains a key named `status` extracts successfully and yields a parameter
name prefixed by `status.`. -/
theorem yaml_status_prefix_c1_cex :
    (yamlExtract "composition.yaml" (some statusKeyManifest)).map
        (fun b => b.parameters.map (fun p => p.name)) =
      Except.ok ["status", "status.phase"] ∧
    "status.".data <+: "status.phase".data := by
  constructor
  · simp [yamlExtract, statusKeyManifest, dictGet, extractForProvider, flattenForProvider,
      extractMetadata, inferType, isScalarDefault, bind, Except.bind, Except.map]
  · decide

/-- C1 (amended): parameters derive solely from flattening `spec.forProvider`
(the manifest's top-level `status`/`patches` subtrees are never inspected),
so whenever no top-level key of `spec.forProvider` equals `status` or starts
with `status.`, no parameter name equals or is prefixed by `status.`. -/
theorem yaml_status_prefix_c1 (path : String) (data : YamlVal) (b : ContractBoundary)
    (h : yamlExtract path (some data) = Except.ok b)
    (hkeys : ∀ k ∈ forProviderTopKeys data, ¬ ("status.".data <+: (k ++ ".").data)) :
    ∀ p ∈ b.parameters, ¬ ("status.".data <+: p.name.data) := by
  intro p hp
  rw [yamlExtract_ok_params h] at hp
  cases hfp : forProviderMap data with
  | none =>
    rw [hfp] at hp
    cases hp
  | some fkvs =>
    rw [hfp] at hp
    obtain ⟨k, t, hk, hname, ht⟩ := flatten_name_shape "" fkvs p hp
    have hkmem : k ∈ forProviderTopKeys data := by
      simpa [forProviderTopKeys, hfp] using hk
    have hblock := statusDot_block (hkeys k hkmem) ht
    rw [hname, String.empty_append]
    exact hblock

/-- Witness for C1 at a benign concrete manifest and its parameter. -/
theorem yaml_status_prefix_c1_witness :
    yamlExtract "composition.yaml" (some c1GoodManifest) = Except.ok c1GoodBoundary ∧
    (∀ k ∈ forProviderTopKeys c1GoodManifest, ¬ ("status.".data <+: (k ++ ".").data)) ∧
    ¬ ("status.".data <+:
      ({ name := "replicas", type := some "integer", required := false,
         default := some (YamlVal.int 3), description := none } : Parameter).name.data) := by
  have hok : yamlExtract "composition.yaml" (some c1GoodManifest) =
      Except.ok c1GoodBoundary := by
    simp [yamlExtract, c1GoodManifest, c1GoodBoundary, dictGet, extractForProvider,
      flattenForProvider, extractMetadata, inferType, isScalarDefault, bind, Except.bind]
  have hkeys : ∀ k ∈ forProviderTopKeys c1GoodManifest,
      ¬ ("status.".data <+: (k ++ ".").data) := by
    decide
  exact ⟨hok, hkeys,
    yaml_status_prefix_c1 "composition.yaml" c1GoodManifest c1GoodBoundary hok hkeys _
      (by simp [c1GoodBoundary])⟩

end ZT
